import Mathlib

/-!
# Verification of the SPOCK simulation-state transformation subsystem

Shallow embedding of `spock/simsetup.py`: the simulation-state
preparation, extraction, merger-resolution and reinsertion logic.
Machine floating-point numbers are modelled as exact reals; NumPy's NaN
sentinel is modelled as `Option.none`; Python exceptions (rebound index
or orbit errors, unbound local variables) are modelled as `Option.none`
results of the enclosing function.

Orbital elements in rebound are derived views of the particle state;
following the data model (`a`, `e`, `inc`, `pomega`, `Omega`,
mean longitude `l` (or `theta`)), a particle is represented here by its
mass together with those six elements, which is exactly the tuple that
`copy_sim`, `replace_p` and `revert_sim_units` read and write.
-/

namespace Spock

/-! ## VectorGeometry: `npEulerAnglesTransform` (simsetup.py lines 87-104) -/

/-- A Cartesian 3-vector (a position or velocity of one body). -/
@[ext]
structure Vec3 where
  x : ℝ
  y : ℝ
  z : ℝ

/-- Transform `npEulerAnglesTransform(xyz, Omega, I, omega)`: rotate
about z by `omega`, then about the x-analog axis by `I`, then about z
by `Omega`, exactly as the three blocks of the Python function. -/
noncomputable def npEulerAnglesTransform (v : Vec3) (Omega I omega : ℝ) : Vec3 :=
  let s1 := Real.sin omega
  let c1 := Real.cos omega
  let x1 := c1 * v.x - s1 * v.y
  let y1 := s1 * v.x + c1 * v.y
  let z1 := v.z
  let s2 := Real.sin I
  let c2 := Real.cos I
  let x2 := x1
  let y2 := c2 * y1 - s2 * z1
  let z2 := s2 * y1 + c2 * z1
  let s3 := Real.sin Omega
  let c3 := Real.cos Omega
  let x3 := c3 * x2 - s3 * y2
  let y3 := s3 * x2 + c3 * y2
  let z3 := z2
  ⟨x3, y3, z3⟩

/-! ## MergerResolver: `perfect_merge` (simsetup.py lines 138-155) -/

/-- The state of one body as the collision resolver sees it: mass,
Cartesian position and velocity, and collision radius. -/
structure MBody where
  m : ℝ
  pos : Vec3
  vel : Vec3
  r : ℝ

/-- Merger resolver `perfect_merge`: the merged body replacing the
colliding bodies `pi` and `pj`.  The source computes
`merged_planet = (ps[i]*ps[i].m + ps[j]*ps[j].m)/total_mass`
(momentum-conserving weighted average of the state vectors), then
overwrites the mass with the total mass and the radius with the
uniform-density joined radius `(ri^3 + rj^3)^(1/3)`.  The Python
function also stops the integration and directs the caller to remove
particle `j`; only the surviving body's state is modelled here. -/
noncomputable def perfect_merge (pi pj : MBody) : MBody :=
  let total_mass := pi.m + pj.m
  { m := total_mass
    pos := ⟨(pi.m * pi.pos.x + pj.m * pj.pos.x) / total_mass,
            (pi.m * pi.pos.y + pj.m * pj.pos.y) / total_mass,
            (pi.m * pi.pos.z + pj.m * pj.pos.z) / total_mass⟩
    vel := ⟨(pi.m * pi.vel.x + pj.m * pj.vel.x) / total_mass,
            (pi.m * pi.vel.y + pj.m * pj.vel.y) / total_mass,
            (pi.m * pi.vel.z + pj.m * pj.vel.z) / total_mass⟩
    r := (pi.r ^ 3 + pj.r ^ 3) ^ ((1 : ℝ) / 3) }

/-! ## IntegratorConfigurer: `set_integrator_and_timestep`
(simsetup.py lines 24-36) -/

/-- One non-dominant body as the integrator configurer reads it:
orbital period `P` and eccentricity `e` (`sim.particles[1:sim.N_real]`
mapped to `p.P` and `p.e`). -/
structure OrbBody where
  P : ℝ
  e : ℝ

/-- Pericenter passage time of one body, `P*(1-e)**1.5/sqrt(1+e)`. -/
noncomputable def Tperi (b : OrbBody) : ℝ :=
  b.P * (1 - b.e) ^ ((1.5 : ℝ)) / Real.sqrt (1 + b.e)

/-- Configurer `set_integrator_and_timestep`, acting on the list of
non-dominant bodies.  Returns the pair (timestep, integrator) that the
source writes into `sim.dt` and `sim.integrator`.  The NaN timestep
sentinel written for a hyperbolic orbit is modelled as the inner
`none`; the outer `none` models the NumPy error on an empty body list
(`np.max` of an empty array), which the source never reaches because a
validated simulation has at least one non-dominant body. -/
noncomputable def set_integrator_and_timestep (bodies : List OrbBody) :
    Option (Option ℝ × String) :=
  match bodies with
  | [] => none
  | b :: bs =>
      let emax := (bs.map OrbBody.e).foldl max b.e
      let dt : Option ℝ :=
        if emax < 1 then
          some (0.05 * ((bs.map Tperi).foldl min (Tperi b)))
        else
          none
      let integrator : String := if emax > 0.99 then "ias15" else "whfast"
      some (dt, integrator)

/-! ## SystemValidator: `check_valid_sim` (simsetup.py lines 12-22) -/

/-- Validation errors.  The source raises `AttributeError` with two
distinct SPOCK messages; the spec names them `NegativeMassError` and
`NonDominantPrimaryError`. -/
inductive SimError where
  | negativeMass
  | nonDominantPrimary
deriving DecidableEq

/-- Validator `check_valid_sim` on the mass array `ms` of all real
particles, given as the primary mass `m0 = ms[0]` together with the
remaining masses (the simulation has at least one particle).  It fails
with the negative-mass error when `np.min(ms) < 0`, then with the
non-dominant-primary error when `np.max(ms) != ms[0]`, and otherwise
returns without touching the simulation; it is a pure check, modelled
by a result that carries no state at all. -/
noncomputable def check_valid_sim (m0 : ℝ) (ms : List ℝ) : Except SimError Unit :=
  if (ms.foldl min m0) < 0 then
    .error .negativeMass
  else if ¬((ms.foldl max m0) = m0) then
    .error .nonDominantPrimary
  else
    .ok ()

/-! ## SystemState for extraction and reinsertion

A body, as the extractor and reinserter read and write it, is its mass
together with the six orbital elements: `copy_sim` copies
`(m, a, e, inc, pomega, Omega, theta)` and `replace_p` overwrites
`(m, a, e, inc, pomega, Omega, l)`.  Per the data model the longitude
slot is the mean longitude `l` (or `theta`); rebound derives either
from the same orbit state, so the element tuple carries one longitude
field named `l`. -/

/-- A body of the system in orbital-element representation. -/
@[ext]
structure Particle where
  m : ℝ
  a : ℝ
  e : ℝ
  inc : ℝ
  pomega : ℝ
  Omega : ℝ
  l : ℝ

/-- A simulation state: the gravitational constant and the ordered
particle list, index 0 being the dominant body. -/
@[ext]
structure Sim where
  G : ℝ
  particles : List Particle

/-- The primary that `sim_copy.add(m=...)` creates: a body of the given
mass with no orbit (the primary's element slots are vacuous, held 0). -/
def star (m : ℝ) : Particle := ⟨m, 0, 0, 0, 0, 0, 0⟩

/-- Index selection of the copy loop
`for i in range(1, sim.N): if i in p_inds: ...`: the indices kept, in
their original order.  An entry of `p_inds` that is 0 or out of range
is silently never visited by the loop. -/
def selIdxs (N : ℕ) (p_inds : List ℕ) : List ℕ :=
  (List.range N).filter (fun i => decide (1 ≤ i) && decide (i ∈ p_inds))

/-- One body as the scaled branch of `copy_sim` adds it: mass divided
by the primary mass `Mstar`, semi-major axis divided by the innermost
selected body's axis `a1`, every other element copied unchanged. -/
noncomputable def scaleParticle (Mstar a1 : ℝ) (p : Particle) : Particle :=
  { p with m := p.m / Mstar, a := p.a / a1 }

/-- Extractor `copy_sim(sim, p_inds, scaled)`: a fresh simulation with
`G = 4*pi^2`, a primary of mass 1 (scaled) or of the original primary's
mass (unscaled), and copies of exactly the selected non-dominant bodies
in their original order.  `none` models the Python errors: an empty
source simulation (`ps[0]`), and — in the scaled branch only — an empty
selection (`min` of an empty sequence), a minimum selected index of 0
(the primary has no orbit, so `ps[0].a` raises), or a minimum selected
index out of range (IndexError). -/
noncomputable def copy_sim (sim : Sim) (p_inds : List ℕ) (scaled : Bool) : Option Sim :=
  match sim.particles with
  | [] => none
  | p0 :: rest =>
    if scaled then
      match p_inds.min? with
      | none => none
      | some i0 =>
        if i0 = 0 then none
        else
          match (p0 :: rest)[i0]? with
          | none => none
          | some pmin =>
            some { G := 4 * Real.pi ^ 2,
                   particles := star 1 ::
                     (selIdxs (p0 :: rest).length p_inds).filterMap
                       (fun i => ((p0 :: rest)[i]?).map (scaleParticle p0.m pmin.a)) }
    else
      some { G := 4 * Real.pi ^ 2,
             particles := star p0.m ::
               (selIdxs (p0 :: rest).length p_inds).filterMap
                 (fun i => (p0 :: rest)[i]?) }

/-! ## SubsystemReinserter: `replace_p` and `replace_trio`
(simsetup.py lines 157-209) -/

/-- Ascending-semi-major-axis relation used by the reorder step. -/
def leA (p q : Particle) : Prop := p.a ≤ q.a

noncomputable instance : DecidableRel leA := fun p q => Real.decidableLE p.a q.a

instance : IsTotal Particle leA := ⟨fun p q => le_total p.a q.a⟩

instance : IsTrans Particle leA := ⟨fun _ _ _ h h2 => le_trans h h2⟩

/-- Reorder step of `replace_trio`: `np.argsort` of the semi-major axes
of slots 1.. followed by re-application into slots 1..k produces the
tail reordered ascending by `a` (NumPy's tie order is
implementation-defined and nothing downstream depends on it), modelled
by an insertion sort. -/
noncomputable def sortByA (l : List Particle) : List Particle :=
  List.insertionSort leA l

/-- Overwrite of slot `i` by `replace_p`, which assigns every element
field of `sim.particles[p_ind]` from the new particle; `none` models
the IndexError on an out-of-range slot. -/
def setAt (l : List Particle) (i : ℕ) (p : Particle) : Option (List Particle) :=
  if i < l.length then some (l.set i p) else none

/-- Removal of slot `i` (`sim.remove(ind)`); `none` models rebound's
error for an out-of-range index. -/
def removeAt (l : List Particle) (i : ℕ) : Option (List Particle) :=
  if i < l.length then some (l.eraseIdx i) else none

/-- Reinserter
`replace_trio(original_sim, trio_inds, new_state_sim, theta1, theta2)`.
The parameter `R` is the per-particle effect of the inverse frame
rotation: the source maps the Cartesian position and velocity of every
particle of the copy through `npEulerAnglesTransform` with arguments
`(-theta1, -theta2, 0)`, which induces a map on the element
representation; at `theta1 = theta2 = 0` that rotation is the identity
(lemma `npEulerAnglesTransform_zero` below), so immediate reinsertion
without alignment instantiates `R = id`.

Returns the pair (reinserted simulation, reduced simulation after the
in-place rescale `new_ps[i].a = original_a1 * new_ps[i].a`), since the
source mutates its `new_state_sim` argument.  `none` models the Python
errors: `trio_inds[0]` equal to 0 (primary has no orbit) or out of
range, an out-of-range replace/remove index, and — when `new_state_sim`
has 0 or more than 3 particles — the `NameError` from the unbound local
`sim_copy`, because the source only defines it under
`len(new_ps) == 3`, `== 2` and `== 1`. -/
noncomputable def replace_trio (R : Particle → Particle) (original_sim : Sim)
    (ind1 ind2 ind3 : ℕ) (new_state_sim : Sim) : Option (Sim × Sim) :=
  if ind1 = 0 then none
  else
    match original_sim.particles[ind1]? with
    | none => none
    | some pfirst =>
      match new_state_sim.particles with
      | [] => none
      | q0 :: qs =>
        let qs1 := qs.map fun q => { q with a := pfirst.a * q.a }
        let mutated : Sim := { new_state_sim with particles := q0 :: qs1 }
        let core : Option (List Particle) :=
          match qs1 with
          | [] =>
              (removeAt original_sim.particles ind3).bind fun l1 =>
                (removeAt l1 ind2).bind fun l2 => removeAt l2 ind1
          | [q1] =>
              (setAt original_sim.particles ind1 q1).bind fun l1 =>
                (removeAt l1 ind3).bind fun l2 => removeAt l2 ind2
          | [q1, q2] =>
              (setAt original_sim.particles ind1 q1).bind fun l1 =>
                (setAt l1 ind2 q2).bind fun l2 => removeAt l2 ind3
          | _ => none
        core.map fun l =>
          ({ G := original_sim.G,
             particles :=
               match l.map R with
               | [] => []
               | h :: t => h :: sortByA t },
           mutated)

/-- A circular coplanar body of mass 1/1000 at semi-major axis `a`,
used as concrete test data. -/
noncomputable def samplePlanet (a : ℝ) : Particle := ⟨1 / 1000, a, 0, 0, 0, 0, 0⟩

/-- Claim C3: round trip of the frame rotation.  `align_simulation` applies
the transform with arguments `(0, theta2, theta1)`; `replace_trio`
undoes it with `(-theta1, -theta2, 0)`; the composition is the
identity on every 3-vector, for every angle pair (in particular for
the angles computed from any non-degenerate angular-momentum vector),
hence the original Cartesian coordinates are recovered exactly — a
fortiori within 1e-9 relative tolerance. -/
theorem C3_euler_roundtrip (v : Vec3) (theta1 theta2 : ℝ) :
    npEulerAnglesTransform
      (npEulerAnglesTransform v 0 theta2 theta1) (-theta1) (-theta2) 0 = v := by
  have h1 := Real.sin_sq_add_cos_sq theta1
  have h2 := Real.sin_sq_add_cos_sq theta2
  ext
  · simp only [npEulerAnglesTransform, Real.sin_neg, Real.cos_neg, Real.sin_zero,
      Real.cos_zero]
    linear_combination (Real.sin theta1 ^ 2 * v.x + Real.sin theta1 * Real.cos theta1 * v.y) * h2
      + v.x * h1
  · simp only [npEulerAnglesTransform, Real.sin_neg, Real.cos_neg, Real.sin_zero,
      Real.cos_zero]
    linear_combination (Real.cos theta1 * Real.sin theta1 * v.x + Real.cos theta1 ^ 2 * v.y) * h2
      + v.y * h1
  · simp only [npEulerAnglesTransform, Real.sin_neg, Real.cos_neg, Real.sin_zero,
      Real.cos_zero]
    linear_combination v.z * h2

/-- Claim C2: the merger resolver conserves mass and momentum and merges
radii by summed cubes: the merged mass is `mi + mj`, the merged
momentum (merged mass times merged velocity, componentwise) equals
`mi*vi + mj*vj`, the merged position satisfies the same mass-weighted
average law, and the cube of the merged radius is `ri^3 + rj^3`. -/
theorem C2_perfect_merge_conservation (pi pj : Spock.MBody)
    (hm : pi.m + pj.m ≠ 0) (hri : 0 ≤ pi.r) (hrj : 0 ≤ pj.r) :
    (perfect_merge pi pj).m = pi.m + pj.m ∧
    (perfect_merge pi pj).m * (perfect_merge pi pj).vel.x
        = pi.m * pi.vel.x + pj.m * pj.vel.x ∧
    (perfect_merge pi pj).m * (perfect_merge pi pj).vel.y
        = pi.m * pi.vel.y + pj.m * pj.vel.y ∧
    (perfect_merge pi pj).m * (perfect_merge pi pj).vel.z
        = pi.m * pi.vel.z + pj.m * pj.vel.z ∧
    (perfect_merge pi pj).m * (perfect_merge pi pj).pos.x
        = pi.m * pi.pos.x + pj.m * pj.pos.x ∧
    (perfect_merge pi pj).m * (perfect_merge pi pj).pos.y
        = pi.m * pi.pos.y + pj.m * pj.pos.y ∧
    (perfect_merge pi pj).m * (perfect_merge pi pj).pos.z
        = pi.m * pi.pos.z + pj.m * pj.pos.z ∧
    (perfect_merge pi pj).r ^ 3 = pi.r ^ 3 + pj.r ^ 3 := by
  have hcube : 0 ≤ pi.r ^ 3 + pj.r ^ 3 :=
    add_nonneg (pow_nonneg hri 3) (pow_nonneg hrj 3)
  refine ⟨rfl, ?_, ?_, ?_, ?_, ?_, ?_, ?_⟩
  · simp only [perfect_merge]; field_simp
  · simp only [perfect_merge]; field_simp
  · simp only [perfect_merge]; field_simp
  · simp only [perfect_merge]; field_simp
  · simp only [perfect_merge]; field_simp
  · simp only [perfect_merge]; field_simp
  · simp only [perfect_merge]
    rw [← Real.rpow_natCast ((pi.r ^ 3 + pj.r ^ 3) ^ ((1 : ℝ) / 3)) 3,
      ← Real.rpow_mul hcube]
    norm_num

/-- Witness for C2 at the claim's concrete scenario: masses 1 and 3
with radii 1 and 2 merge to mass 4 and radius of cube 9, i.e. the
radius lies strictly between 2.08 and 2.081 (so is ≈ 2.0801). -/
theorem C2_witness :
    (perfect_merge ⟨1, ⟨0, 0, 0⟩, ⟨1, 0, 0⟩, 1⟩ ⟨3, ⟨1, 0, 0⟩, ⟨0, 1, 0⟩, 2⟩).m = 4 ∧
    (perfect_merge ⟨1, ⟨0, 0, 0⟩, ⟨1, 0, 0⟩, 1⟩ ⟨3, ⟨1, 0, 0⟩, ⟨0, 1, 0⟩, 2⟩).r ^ 3 = 9 ∧
    (2.08 : ℝ) < (perfect_merge ⟨1, ⟨0, 0, 0⟩, ⟨1, 0, 0⟩, 1⟩ ⟨3, ⟨1, 0, 0⟩, ⟨0, 1, 0⟩, 2⟩).r ∧
    (perfect_merge ⟨1, ⟨0, 0, 0⟩, ⟨1, 0, 0⟩, 1⟩ ⟨3, ⟨1, 0, 0⟩, ⟨0, 1, 0⟩, 2⟩).r < 2.081 := by
  obtain ⟨hmass, -, -, -, -, -, -, hrad⟩ :=
    C2_perfect_merge_conservation ⟨1, ⟨0, 0, 0⟩, ⟨1, 0, 0⟩, 1⟩ ⟨3, ⟨1, 0, 0⟩, ⟨0, 1, 0⟩, 2⟩
      (by norm_num) (by norm_num) (by norm_num)
  have hmass4 : (perfect_merge ⟨1, ⟨0, 0, 0⟩, ⟨1, 0, 0⟩, 1⟩ ⟨3, ⟨1, 0, 0⟩, ⟨0, 1, 0⟩, 2⟩).m = 4 := by
    rw [hmass]; norm_num
  have hrad9 : (perfect_merge ⟨1, ⟨0, 0, 0⟩, ⟨1, 0, 0⟩, 1⟩ ⟨3, ⟨1, 0, 0⟩, ⟨0, 1, 0⟩, 2⟩).r ^ 3 = 9 := by
    rw [hrad]; norm_num
  have hr0 : 0 ≤ (perfect_merge ⟨1, ⟨0, 0, 0⟩, ⟨1, 0, 0⟩, 1⟩ ⟨3, ⟨1, 0, 0⟩, ⟨0, 1, 0⟩, 2⟩).r := by
    simp only [perfect_merge]
    exact Real.rpow_nonneg (by norm_num) _
  refine ⟨hmass4, hrad9, ?_, ?_⟩
  · by_contra hc
    push_neg at hc
    have := pow_le_pow_left₀ hr0 hc 3
    rw [hrad9] at this
    norm_num at this
  · by_contra hc
    push_neg at hc
    have h0 : (0 : ℝ) ≤ 2.081 := by norm_num
    have := pow_le_pow_left₀ h0 hc 3
    rw [hrad9] at this
    norm_num at this

/-! ### Facts about NumPy-style folds for min and max -/

/-- A left fold of `min` is a lower bound for its seed and its list. -/
lemma foldl_min_le (l : List ℝ) : ∀ x : ℝ,
    l.foldl min x ≤ x ∧ ∀ y ∈ l, l.foldl min x ≤ y := by
  induction l with
  | nil => intro x; exact ⟨le_refl x, by simp⟩
  | cons a t ih =>
    intro x
    refine ⟨?_, ?_⟩
    · simpa only [List.foldl_cons] using le_trans (ih (min x a)).1 (min_le_left x a)
    · intro y hy
      rcases List.mem_cons.mp hy with h | h
      · subst h
        simpa only [List.foldl_cons] using le_trans (ih (min x y)).1 (min_le_right x y)
      · simpa only [List.foldl_cons] using (ih (min x a)).2 y h

/-- A left fold of `min` is attained at the seed or at a list element. -/
lemma foldl_min_mem (l : List ℝ) : ∀ x : ℝ,
    l.foldl min x = x ∨ l.foldl min x ∈ l := by
  induction l with
  | nil => intro x; exact Or.inl rfl
  | cons a t ih =>
    intro x
    have h := ih (min x a)
    rcases h with h | h
    · rcases min_choice x a with hx | ha
      · left
        rw [List.foldl_cons, h, hx]
      · right
        rw [List.foldl_cons, h, ha]
        exact List.mem_cons_self a t
    · right
      rw [List.foldl_cons]
      exact List.mem_cons_of_mem a h

/-- A left fold of `max` is an upper bound for its seed and its list. -/
lemma le_foldl_max (l : List ℝ) : ∀ x : ℝ,
    x ≤ l.foldl max x ∧ ∀ y ∈ l, y ≤ l.foldl max x := by
  induction l with
  | nil => intro x; exact ⟨le_refl x, by simp⟩
  | cons a t ih =>
    intro x
    refine ⟨?_, ?_⟩
    · simpa only [List.foldl_cons] using le_trans (le_max_left x a) (ih (max x a)).1
    · intro y hy
      rcases List.mem_cons.mp hy with h | h
      · subst h
        simpa only [List.foldl_cons] using le_trans (le_max_right x y) (ih (max x y)).1
      · simpa only [List.foldl_cons] using (ih (max x a)).2 y h

/-- A left fold of `max` is attained at the seed or at a list element. -/
lemma foldl_max_mem (l : List ℝ) : ∀ x : ℝ,
    l.foldl max x = x ∨ l.foldl max x ∈ l := by
  induction l with
  | nil => intro x; exact Or.inl rfl
  | cons a t ih =>
    intro x
    have h := ih (max x a)
    rcases h with h | h
    · rcases max_choice x a with hx | ha
      · left
        rw [List.foldl_cons, h, hx]
      · right
        rw [List.foldl_cons, h, ha]
        exact List.mem_cons_self a t
    · right
      rw [List.foldl_cons]
      exact List.mem_cons_of_mem a h

/-- Claim C4: for a nonempty list of non-dominant bodies, if every
eccentricity is below 1 the configurer sets the timestep to 0.05 times
the minimum pericenter passage time `Tperi` over those bodies (the
value is attained at one of them and bounds all of them); if the
maximum eccentricity is at least 1 the timestep is set to the
not-a-number sentinel (`none`, which in particular is not the value
zero) and no exception is raised (the configurer still returns a
configuration pair). -/
theorem C4_timestep_configuration (b : OrbBody) (bs : List OrbBody) :
    ((∀ x ∈ b :: bs, x.e < 1) →
      ∃ dtv integ, set_integrator_and_timestep (b :: bs) = some (some dtv, integ) ∧
        (∃ x ∈ b :: bs, dtv = 0.05 * Tperi x) ∧
        (∀ x ∈ b :: bs, dtv ≤ 0.05 * Tperi x)) ∧
    ((∃ x ∈ b :: bs, 1 ≤ x.e) →
      ∃ integ, set_integrator_and_timestep (b :: bs) = some (none, integ) ∧
        (none : Option ℝ) ≠ some 0) := by
  constructor
  · intro hlt
    have hemax : (bs.map OrbBody.e).foldl max b.e < 1 := by
      rcases foldl_max_mem (bs.map OrbBody.e) b.e with h | h
      · rw [h]; exact hlt b (List.mem_cons_self b bs)
      · rcases List.mem_map.mp h with ⟨x, hx, hxe⟩
        rw [← hxe]
        exact hlt x (List.mem_cons_of_mem b hx)
    have heq : set_integrator_and_timestep (b :: bs)
        = some (some (0.05 * ((bs.map Tperi).foldl min (Tperi b))),
            if ((bs.map OrbBody.e).foldl max b.e) > 0.99 then "ias15" else "whfast") := by
      simp only [set_integrator_and_timestep]
      rw [if_pos hemax]
    refine ⟨0.05 * ((bs.map Tperi).foldl min (Tperi b)),
      (if ((bs.map OrbBody.e).foldl max b.e) > 0.99 then "ias15" else "whfast"),
      heq, ?_, ?_⟩
    · rcases foldl_min_mem (bs.map Tperi) (Tperi b) with h | h
      · exact ⟨b, List.mem_cons_self b bs, by rw [h]⟩
      · rcases List.mem_map.mp h with ⟨x, hx, hxT⟩
        exact ⟨x, List.mem_cons_of_mem b hx, by rw [← hxT]⟩
    · intro x hx
      have hmin : (bs.map Tperi).foldl min (Tperi b) ≤ Tperi x := by
        rcases List.mem_cons.mp hx with h | h
        · subst h; exact (foldl_min_le (bs.map Tperi) (Tperi x)).1
        · exact (foldl_min_le (bs.map Tperi) (Tperi b)).2 (Tperi x) (List.mem_map_of_mem Tperi h)
      linarith
  · rintro ⟨x, hx, hxe⟩
    have hemax : ¬((bs.map OrbBody.e).foldl max b.e < 1) := by
      have hxle : x.e ≤ (bs.map OrbBody.e).foldl max b.e := by
        rcases List.mem_cons.mp hx with h | h
        · subst h; exact (le_foldl_max (bs.map OrbBody.e) x.e).1
        · exact (le_foldl_max (bs.map OrbBody.e) b.e).2 x.e (List.mem_map_of_mem OrbBody.e h)
      push_neg
      exact le_trans hxe hxle
    have heq : set_integrator_and_timestep (b :: bs)
        = some (none,
            if ((bs.map OrbBody.e).foldl max b.e) > 0.99 then "ias15" else "whfast") := by
      simp only [set_integrator_and_timestep]
      rw [if_neg hemax]
    exact ⟨(if ((bs.map OrbBody.e).foldl max b.e) > 0.99 then "ias15" else "whfast"),
      heq, by simp⟩

/-- Witness for C4: a single circular body of period 8 gets timestep
0.05 * Tperi = 2/5 with the fast integrator, and a single hyperbolic
body with eccentricity 1.2 gets the NaN sentinel timestep (and the
high-precision integrator). -/
theorem C4_witness :
    set_integrator_and_timestep [⟨8, 0⟩] = some (some (2 / 5), "whfast") ∧
    set_integrator_and_timestep [⟨1, 1.2⟩] = some (none, "ias15") := by
  have hTp : Tperi ⟨8, 0⟩ = 8 := by
    simp [Tperi, Real.one_rpow, Real.sqrt_one]
  obtain ⟨dtv, integ, heq, hmem, -⟩ :=
    (C4_timestep_configuration ⟨8, 0⟩ []).1
      (by intro x hx; rw [List.mem_singleton] at hx; rw [hx]; norm_num)
  obtain ⟨integ2, heq2, -⟩ :=
    (C4_timestep_configuration ⟨1, 1.2⟩ []).2
      ⟨⟨1, 1.2⟩, List.mem_singleton_self _, by norm_num⟩
  constructor
  · rw [heq]
    have hd : dtv = 2 / 5 := by
      obtain ⟨x, hx, hxv⟩ := hmem
      rw [List.mem_singleton] at hx
      rw [hxv, hx, hTp]
      norm_num
    have hi : integ = "whfast" := by
      have : set_integrator_and_timestep [(⟨8, 0⟩ : OrbBody)]
          = some (some (0.05 * Tperi ⟨8, 0⟩), "whfast") := by
        simp only [set_integrator_and_timestep, List.map_nil, List.foldl_nil]
        norm_num
      rw [this] at heq
      simp only [Option.some.injEq, Prod.mk.injEq] at heq
      exact heq.2.symm
    rw [hd, hi]
  · rw [heq2]
    have hi : integ2 = "ias15" := by
      have : set_integrator_and_timestep [(⟨1, 1.2⟩ : OrbBody)]
          = some (none, "ias15") := by
        simp only [set_integrator_and_timestep, List.map_nil, List.foldl_nil]
        norm_num
      rw [this] at heq2
      simp only [Option.some.injEq, Prod.mk.injEq] at heq2
      exact heq2.2.symm
    rw [hi]

/-- Claim C6: the validator fails with the negative-mass error exactly
when some mass is negative; it fails with the non-dominant-primary
error exactly when all masses are non-negative but some non-primary
body strictly exceeds the primary's mass (so that `ms[0]` is not the
maximum); and it succeeds exactly when all masses are non-negative and
the primary's mass is maximal.  The check is pure: its result carries
no simulation state, so the input is untouched. -/
theorem C6_check_valid_sim_cases (m0 : ℝ) (ms : List ℝ) :
    (check_valid_sim m0 ms = .error .negativeMass ↔ (m0 < 0 ∨ ∃ m ∈ ms, m < 0)) ∧
    (check_valid_sim m0 ms = .error .nonDominantPrimary ↔
      ((0 ≤ m0 ∧ ∀ m ∈ ms, 0 ≤ m) ∧ ∃ m ∈ ms, m0 < m)) ∧
    (check_valid_sim m0 ms = .ok () ↔
      ((0 ≤ m0 ∧ ∀ m ∈ ms, 0 ≤ m) ∧ ∀ m ∈ ms, m ≤ m0)) := by
  have hneg : (ms.foldl min m0 < 0) ↔ (m0 < 0 ∨ ∃ m ∈ ms, m < 0) := by
    constructor
    · intro h
      rcases foldl_min_mem ms m0 with hm | hm
      · left; rwa [hm] at h
      · right; exact ⟨_, hm, h⟩
    · intro h
      rcases h with h | ⟨m, hm, hmlt⟩
      · exact lt_of_le_of_lt (foldl_min_le ms m0).1 h
      · exact lt_of_le_of_lt ((foldl_min_le ms m0).2 m hm) hmlt
  have hmax : (ms.foldl max m0 = m0) ↔ (∀ m ∈ ms, m ≤ m0) := by
    constructor
    · intro h m hm
      rw [← h]
      exact (le_foldl_max ms m0).2 m hm
    · intro h
      rcases foldl_max_mem ms m0 with hm | hm
      · exact hm
      · exact le_antisymm (h _ hm) (le_foldl_max ms m0).1
  have hnonneg : ¬(ms.foldl min m0 < 0) ↔ (0 ≤ m0 ∧ ∀ m ∈ ms, 0 ≤ m) := by
    rw [hneg]
    push_neg
    exact Iff.rfl
  have hnotmax : ¬(ms.foldl max m0 = m0) ↔ (∃ m ∈ ms, m0 < m) := by
    rw [not_congr hmax]
    push_neg
    exact Iff.rfl
  by_cases h1 : ms.foldl min m0 < 0
  · have hres : check_valid_sim m0 ms = .error .negativeMass := by
      unfold check_valid_sim
      rw [if_pos h1]
    rw [hres]
    refine ⟨iff_of_true rfl (hneg.mp h1), ?_, ?_⟩
    · exact iff_of_false (by simp) (fun hP => (hnonneg.mpr hP.1) h1)
    · exact iff_of_false (by simp) (fun hP => (hnonneg.mpr hP.1) h1)
  · by_cases h2 : ms.foldl max m0 = m0
    · have hres : check_valid_sim m0 ms = .ok () := by
        unfold check_valid_sim
        rw [if_neg h1, if_neg (not_not_intro h2)]
      rw [hres]
      refine ⟨?_, ?_, iff_of_true rfl ⟨hnonneg.mp h1, hmax.mp h2⟩⟩
      · exact iff_of_false (by simp) (fun hP => h1 (hneg.mpr hP))
      · exact iff_of_false (by simp) (fun hP => (hnotmax.mpr hP.2) h2)
    · have hres : check_valid_sim m0 ms = .error .nonDominantPrimary := by
        unfold check_valid_sim
        rw [if_neg h1, if_pos h2]
      rw [hres]
      refine ⟨?_, iff_of_true rfl ⟨hnonneg.mp h1, hnotmax.mp h2⟩, ?_⟩
      · exact iff_of_false (by simp) (fun hP => h1 (hneg.mpr hP))
      · exact iff_of_false (by simp) (fun hP => h2 (hmax.mpr hP.2))

/-- Witness for C6: a negative mass among the bodies yields the
negative-mass error, a non-primary body heavier than the primary yields
the non-dominant-primary error, and a valid system passes. -/
theorem C6_witness :
    check_valid_sim 1 [-1, 2] = .error .negativeMass ∧
    check_valid_sim 1 [2] = .error .nonDominantPrimary ∧
    check_valid_sim 2 [1, 2] = .ok () := by
  refine ⟨?_, ?_, ?_⟩
  · refine (C6_check_valid_sim_cases 1 [-1, 2]).1.mpr (Or.inr ⟨-1, ?_, by norm_num⟩)
    simp
  · refine (C6_check_valid_sim_cases 1 [2]).2.1.mpr ⟨⟨by norm_num, ?_⟩, 2, ?_, by norm_num⟩
    · intro m hm
      rw [List.mem_singleton] at hm
      rw [hm]
      norm_num
    · simp
  · refine (C6_check_valid_sim_cases 2 [1, 2]).2.2.mpr ⟨⟨by norm_num, ?_⟩, ?_⟩
    · intro m hm
      rcases List.mem_cons.mp hm with rfl | hm2
      · norm_num
      · rw [List.mem_singleton] at hm2
        rw [hm2]
        norm_num
    · intro m hm
      rcases List.mem_cons.mp hm with rfl | hm2
      · norm_num
      · rw [List.mem_singleton] at hm2
        rw [hm2]

/-! ### Helper lemmas for extraction and reinsertion -/

/-- At zero angles the Euler-angle transform is the identity, so a
reinsertion immediately after an extraction without frame alignment
rotates by the identity map. -/
lemma npEulerAnglesTransform_zero (v : Vec3) :
    npEulerAnglesTransform v 0 0 0 = v := by
  simp [npEulerAnglesTransform]

/-- Unfolding of the unscaled branch of `copy_sim`. -/
lemma copy_sim_unscaled (G0 : ℝ) (p0 : Particle) (rest : List Particle)
    (p_inds : List ℕ) :
    copy_sim ⟨G0, p0 :: rest⟩ p_inds false
      = some ⟨4 * Real.pi ^ 2,
          star p0.m :: (selIdxs (p0 :: rest).length p_inds).filterMap
            (fun i => (p0 :: rest)[i]?)⟩ := rfl

/-- Unfolding of the scaled branch of `copy_sim`. -/
lemma copy_sim_scaled (G0 : ℝ) (p0 : Particle) (rest : List Particle)
    (p_inds : List ℕ) :
    copy_sim ⟨G0, p0 :: rest⟩ p_inds true
      = (match List.min? p_inds with
         | none => none
         | some i0 =>
           if i0 = 0 then none
           else
             match (p0 :: rest)[i0]? with
             | none => none
             | some pmin =>
               some ⟨4 * Real.pi ^ 2,
                 star 1 :: (selIdxs (p0 :: rest).length p_inds).filterMap
                   (fun i => ((p0 :: rest)[i]?).map (scaleParticle p0.m pmin.a))⟩) := rfl

/-- A selection that is a valid strictly ascending trio of non-dominant
in-range indices is kept by the copy loop exactly and in order. -/
lemma selIdxs_triple (N i1 i2 i3 : ℕ) (h1 : 1 ≤ i1) (h12 : i1 < i2)
    (h23 : i2 < i3) (h3 : i3 < N) :
    selIdxs N [i1, i2, i3] = [i1, i2, i3] := by
  have hnd1 : (selIdxs N [i1, i2, i3]).Nodup :=
    (List.nodup_range N).filter _
  have hnd2 : ([i1, i2, i3] : List ℕ).Nodup := by
    refine List.nodup_cons.mpr ⟨?_, List.nodup_cons.mpr ⟨?_, List.nodup_singleton _⟩⟩
    · intro hmem12
      rcases List.mem_cons.mp hmem12 with h | h
      · omega
      · rw [List.mem_singleton] at h
        omega
    · rw [List.mem_singleton]
      omega
  have hmem : ∀ x, x ∈ selIdxs N [i1, i2, i3] ↔ x ∈ [i1, i2, i3] := by
    intro x
    simp only [selIdxs, List.mem_filter, List.mem_range, Bool.and_eq_true,
      decide_eq_true_eq]
    constructor
    · rintro ⟨-, -, hx⟩
      exact hx
    · intro hx
      have hx' : x = i1 ∨ x = i2 ∨ x = i3 := by
        rcases List.mem_cons.mp hx with h | h
        · exact Or.inl h
        · rcases List.mem_cons.mp h with h2 | h2
          · exact Or.inr (Or.inl h2)
          · exact Or.inr (Or.inr (List.mem_singleton.mp h2))
      refine ⟨?_, ?_, hx⟩
      · rcases hx' with rfl | rfl | rfl <;> omega
      · rcases hx' with rfl | rfl | rfl <;> omega
  have hperm : List.Perm (selIdxs N [i1, i2, i3]) [i1, i2, i3] := by
    refine List.perm_of_nodup_nodup_toFinset_eq hnd1 hnd2 ?_
    ext x
    simp only [List.mem_toFinset]
    exact hmem x
  have hs1 : List.Sorted (· ≤ ·) (selIdxs N [i1, i2, i3]) :=
    (List.sorted_le_range N).filter _
  have hs2 : List.Sorted (· ≤ ·) [i1, i2, i3] := by
    refine List.Pairwise.cons ?_ (List.Pairwise.cons ?_ (List.sorted_singleton i3))
    · intro b hb
      rcases List.mem_cons.mp hb with rfl | hb2
      · omega
      · rw [List.mem_singleton] at hb2
        omega
    · intro b hb
      rw [List.mem_singleton] at hb
      omega
  exact List.eq_of_perm_of_sorted hperm hs1 hs2

/-- Claim C9: every extraction result, scaled or not, has its
gravitational constant set to `4*pi^2`; in particular a copy taken from
a source with a different `G` does not inherit it. -/
theorem C9_copy_sim_sets_G (sim : Sim) (p_inds : List ℕ) (scaled : Bool)
    (r : Sim) (h : copy_sim sim p_inds scaled = some r) :
    r.G = 4 * Real.pi ^ 2 ∧ (sim.G ≠ 4 * Real.pi ^ 2 → r.G ≠ sim.G) := by
  have hG : r.G = 4 * Real.pi ^ 2 := by
    rcases sim with ⟨G0, ps⟩
    cases ps with
    | nil => simp [copy_sim] at h
    | cons p0 rest =>
      cases scaled with
      | false =>
        rw [copy_sim_unscaled] at h
        have := Option.some.inj h
        rw [← this]
      | true =>
        rw [copy_sim_scaled] at h
        rcases hmin : List.min? p_inds with _ | i0 <;>
          (rw [hmin] at h; dsimp only at h)
        · simp at h
        · by_cases h0 : i0 = 0
          · rw [if_pos h0] at h
            simp at h
          · rw [if_neg h0] at h
            rcases hget : (p0 :: rest)[i0]? with _ | pmin <;>
              (rw [hget] at h; dsimp only at h)
            · simp at h
            · have := Option.some.inj h
              rw [← this]
  refine ⟨hG, fun hne => ?_⟩
  rw [hG]
  exact fun hc => hne hc.symm

/-- Witness for C9: extracting from a one-particle simulation whose
gravitational constant is 1 yields a copy with `G = 4*pi^2`. -/
theorem C9_witness :
    copy_sim ⟨1, [star 1]⟩ [] false = some ⟨4 * Real.pi ^ 2, [star 1]⟩ ∧
    (⟨4 * Real.pi ^ 2, [star 1]⟩ : Sim).G = 4 * Real.pi ^ 2 := by
  have h : copy_sim ⟨1, [star 1]⟩ [] false = some ⟨4 * Real.pi ^ 2, [star 1]⟩ := rfl
  exact ⟨h, (C9_copy_sim_sets_G ⟨1, [star 1]⟩ [] false _ h).1⟩

/-- Valid entries of a selection can be singled out without changing
the selected index list: entries that are 0 or out of range never match
the copy loop's range. -/
lemma selIdxs_filter_valid (N : ℕ) (p_inds : List ℕ) :
    selIdxs N (p_inds.filter (fun i => decide (1 ≤ i) && decide (i < N)))
      = selIdxs N p_inds := by
  unfold selIdxs
  apply List.filter_congr
  intro x hx
  rw [List.mem_range] at hx
  by_cases h1 : 1 ≤ x
  · simp only [h1]
    congr 1
    rw [decide_eq_decide]
    simp only [List.mem_filter, Bool.and_eq_true, decide_eq_true_eq]
    constructor
    · rintro ⟨hmem, -, -⟩
      exact hmem
    · intro hmem
      exact ⟨hmem, h1, hx⟩
  · simp [h1]

/-- Counterexample to claim C7: a selection containing the dominant
index 0 and the missing index 5 does not fail — the unscaled extractor
silently ignores both and returns the reduced state made of the primary
and the one valid selected body. -/
theorem C7_counterexample :
    copy_sim ⟨1, [star 1, samplePlanet 2, samplePlanet 3]⟩ [0, 5, 1] false
      = some ⟨4 * Real.pi ^ 2, [star 1, samplePlanet 2]⟩ := rfl

/-- Claim C7 amended: the extractor raises no selection error at all in
the unscaled branch — for any source with at least one particle it
returns a reduced state, and entries of the selection that reference
the dominant index 0 or a missing index are silently dropped (filtering
them away beforehand changes nothing). -/
theorem C7_invalid_indices_ignored (sim : Sim) (p_inds : List ℕ)
    (hne : sim.particles ≠ []) :
    (copy_sim sim p_inds false).isSome = true ∧
    copy_sim sim p_inds false
      = copy_sim sim (p_inds.filter
          (fun i => decide (1 ≤ i) && decide (i < sim.particles.length))) false := by
  rcases sim with ⟨G0, ps⟩
  cases ps with
  | nil => exact absurd rfl hne
  | cons p0 rest =>
    constructor
    · rw [copy_sim_unscaled]
      rfl
    · rw [copy_sim_unscaled, copy_sim_unscaled]
      rw [selIdxs_filter_valid]

/-- Witness for C7 amended: a two-particle source with the selection
`[3, 1]` (3 missing) succeeds and equals the copy of the filtered
selection `[1]`. -/
theorem C7_witness :
    (copy_sim ⟨1, [star 1, samplePlanet 2]⟩ [3, 1] false).isSome = true ∧
    copy_sim ⟨1, [star 1, samplePlanet 2]⟩ [3, 1] false
      = copy_sim ⟨1, [star 1, samplePlanet 2]⟩ ([3, 1].filter
          (fun i => decide (1 ≤ i) && decide (i < 2))) false :=
  C7_invalid_indices_ignored ⟨1, [star 1, samplePlanet 2]⟩ [3, 1] (by simp)

/-- Counterexample to claim C1: extracting the full trio (1,2,3) of a
four-particle system with `normalize=false` succeeds and returns the
four-particle reduced state, but immediately reinserting that unchanged
reduced state does not reproduce anything: `replace_trio` has no branch
for a reduced state with three surviving bodies (`len(new_ps) == 4`),
its local `sim_copy` is never bound, and the call fails (modelled as
`none`) instead of returning a state. -/
theorem C1_counterexample :
    copy_sim ⟨1, [star 1, samplePlanet 2, samplePlanet 3, samplePlanet 4]⟩ [1, 2, 3] false
      = some ⟨4 * Real.pi ^ 2, [star 1, samplePlanet 2, samplePlanet 3, samplePlanet 4]⟩ ∧
    replace_trio id ⟨1, [star 1, samplePlanet 2, samplePlanet 3, samplePlanet 4]⟩ 1 2 3
      ⟨4 * Real.pi ^ 2, [star 1, samplePlanet 2, samplePlanet 3, samplePlanet 4]⟩
      = none := by
  constructor <;> rfl

/-- Claim C1 amended: for every system state and valid ascending trio
of non-dominant indices, extracting with `normalize=false` yields a
reduced state of four particles (the copied primary plus the three trio
bodies), and immediately reinserting that unmodified reduced state is
not supported by the code: `replace_trio` only handles reduced states
of one, two or three particles (zero, one or two surviving bodies), so
the call fails with an unbound-local error (modelled as `none`) for any
inverse rotation, rather than reproducing the original elements. -/
theorem C1_reinsertion_identity_fails (R : Particle → Particle) (s : Sim)
    (i1 i2 i3 : ℕ) (h1 : 1 ≤ i1) (h12 : i1 < i2) (h23 : i2 < i3)
    (h3 : i3 < s.particles.length) (red : Sim)
    (hred : copy_sim s [i1, i2, i3] false = some red) :
    red.particles.length = 4 ∧ replace_trio R s i1 i2 i3 red = none := by
  rcases s with ⟨G0, ps⟩
  cases ps with
  | nil => simp at h3
  | cons p0 rest =>
    rw [copy_sim_unscaled] at hred
    have hsel : selIdxs (p0 :: rest).length [i1, i2, i3] = [i1, i2, i3] :=
      selIdxs_triple _ i1 i2 i3 h1 h12 h23 h3
    have hi1 : i1 < (p0 :: rest).length := by
      simp only [List.length_cons] at h3 ⊢
      omega
    have hi2 : i2 < (p0 :: rest).length := by
      simp only [List.length_cons] at h3 ⊢
      omega
    obtain ⟨x1, hx1⟩ : ∃ x, (p0 :: rest)[i1]? = some x :=
      ⟨(p0 :: rest)[i1], List.getElem?_eq_getElem hi1⟩
    obtain ⟨x2, hx2⟩ : ∃ x, (p0 :: rest)[i2]? = some x :=
      ⟨(p0 :: rest)[i2], List.getElem?_eq_getElem hi2⟩
    obtain ⟨x3, hx3⟩ : ∃ x, (p0 :: rest)[i3]? = some x :=
      ⟨(p0 :: rest)[i3], List.getElem?_eq_getElem h3⟩
    have hlist : (selIdxs (p0 :: rest).length [i1, i2, i3]).filterMap
        (fun i => (p0 :: rest)[i]?) = [x1, x2, x3] := by
      rw [hsel]
      simp [List.filterMap_cons, hx1, hx2, hx3]
    rcases red with ⟨Gr, psr⟩
    have hinj := Option.some.inj hred
    rw [Sim.mk.injEq] at hinj
    obtain ⟨hG, hps⟩ := hinj
    subst hps
    rw [hlist]
    constructor
    · rfl
    · have hind1 : ¬(i1 = 0) := by omega
      simp only [replace_trio, hind1, if_false, hx1, List.map_cons, List.map_nil,
        Option.map_none']

/-- Witness for C1 amended: the concrete four-particle system with the
trio (1,2,3): the unscaled extraction has four particles and the
immediate reinsertion fails. -/
theorem C1_witness :
    (⟨4 * Real.pi ^ 2,
        [star 1, samplePlanet 2, samplePlanet 3, samplePlanet 4]⟩ : Sim).particles.length = 4 ∧
    replace_trio id ⟨1, [star 1, samplePlanet 2, samplePlanet 3, samplePlanet 4]⟩ 1 2 3
      ⟨4 * Real.pi ^ 2, [star 1, samplePlanet 2, samplePlanet 3, samplePlanet 4]⟩
      = none :=
  C1_reinsertion_identity_fails id
    ⟨1, [star 1, samplePlanet 2, samplePlanet 3, samplePlanet 4]⟩ 1 2 3
    (by norm_num) (by norm_num) (by norm_num) (by norm_num)
    ⟨4 * Real.pi ^ 2, [star 1, samplePlanet 2, samplePlanet 3, samplePlanet 4]⟩ rfl

/-- Sortedness of the reorder step. -/
lemma sorted_sortByA (l : List Particle) : List.Sorted leA (sortByA l) :=
  List.sorted_insertionSort leA l

/-- Claim C8: when the reduced state contains zero surviving
non-dominant bodies (only the copied primary is left), reinsertion of
a valid ascending trio raises no error — the three removals proceed
from the highest trio index `ind3` downward, so every removal index
stays valid — and for a three-planet original system the result
contains only the dominant body (carried through the inverse frame
rotation `R`), while the reduced state is returned unchanged. -/
theorem C8_zero_survivors_no_error (R : Particle → Particle) (s : Sim)
    (i1 i2 i3 : ℕ) (h1 : 1 ≤ i1) (h12 : i1 < i2) (h23 : i2 < i3)
    (h3 : i3 < s.particles.length) (ns : Sim) (q0 : Particle)
    (hns : ns.particles = [q0]) :
    (replace_trio R s i1 i2 i3 ns).isSome = true ∧
    (∀ p0 p1 p2 p3, s.particles = [p0, p1, p2, p3] →
      replace_trio R s i1 i2 i3 ns = some (⟨s.G, [R p0]⟩, ⟨ns.G, [q0]⟩)) := by
  rcases s with ⟨G0, ps⟩
  rcases ns with ⟨Gn, qs⟩
  dsimp only at h3 hns
  subst hns
  constructor
  · have hind1 : ¬(i1 = 0) := by omega
    obtain ⟨x1, hx1⟩ : ∃ x, ps[i1]? = some x :=
      ⟨ps[i1], List.getElem?_eq_getElem (by omega)⟩
    have hr3 : i3 < ps.length := h3
    have hl3 : (ps.eraseIdx i3).length = ps.length - 1 := by
      rw [List.length_eraseIdx]
      simp [hr3]
    have hr2 : i2 < (ps.eraseIdx i3).length := by
      rw [hl3]
      omega
    have hl2 : ((ps.eraseIdx i3).eraseIdx i2).length = ps.length - 2 := by
      rw [List.length_eraseIdx, if_pos hr2, hl3]
      omega
    have hr1 : i1 < ((ps.eraseIdx i3).eraseIdx i2).length := by
      rw [hl2]
      omega
    simp only [replace_trio, hind1, if_false, hx1, List.map_nil, removeAt,
      if_pos hr3, Option.some_bind, if_pos hr2, if_pos hr1, Option.map_some',
      Option.isSome_some]
  · intro p0 p1 p2 p3 hps
    subst hps
    simp only [List.length_cons, List.length_nil] at h3
    obtain rfl : i1 = 1 := by omega
    obtain rfl : i2 = 2 := by omega
    obtain rfl : i3 = 3 := by omega
    rfl

/-- Witness for C8: the concrete four-particle system with trio
(1,2,3) and a reduced state holding only the copied primary: the
reinsertion succeeds and leaves only the dominant body. -/
theorem C8_witness :
    (replace_trio id ⟨1, [star 1, samplePlanet 2, samplePlanet 3, samplePlanet 4]⟩ 1 2 3
        ⟨4 * Real.pi ^ 2, [star 1]⟩).isSome = true ∧
    replace_trio id ⟨1, [star 1, samplePlanet 2, samplePlanet 3, samplePlanet 4]⟩ 1 2 3
        ⟨4 * Real.pi ^ 2, [star 1]⟩
      = some (⟨1, [star 1]⟩, ⟨4 * Real.pi ^ 2, [star 1]⟩) := by
  obtain ⟨hsome, hval⟩ :=
    C8_zero_survivors_no_error id
      ⟨1, [star 1, samplePlanet 2, samplePlanet 3, samplePlanet 4]⟩ 1 2 3
      (by norm_num) (by norm_num) (by norm_num) (by norm_num)
      ⟨4 * Real.pi ^ 2, [star 1]⟩ (star 1) rfl
  exact ⟨hsome, hval (star 1) (samplePlanet 2) (samplePlanet 3) (samplePlanet 4) rfl⟩

/-- Claim C10: `replace_trio` mutates its `new_state_sim` argument in
place before splicing: every non-dominant body of the reduced state has
its semi-major axis multiplied by the original lowest-selected body's
semi-major axis, so whenever that factor is not 1 and the body's axis
is nonzero, the caller's reduced state no longer holds its old value at
that slot. -/
theorem C10_replace_trio_mutates_input (R : Particle → Particle) (s : Sim)
    (i1 i2 i3 : ℕ) (ns res mutd : Sim)
    (h : replace_trio R s i1 i2 i3 ns = some (res, mutd)) :
    ∃ pfirst, s.particles[i1]? = some pfirst ∧
      ∃ q0 qs, ns.particles = q0 :: qs ∧
        mutd.G = ns.G ∧
        mutd.particles = q0 :: qs.map (fun q => { q with a := pfirst.a * q.a }) ∧
        (pfirst.a ≠ 1 → ∀ (k : ℕ) (q : Particle), qs[k]? = some q → q.a ≠ 0 →
          mutd.particles[k + 1]? ≠ ns.particles[k + 1]?) := by
  by_cases hind1 : i1 = 0
  · simp [replace_trio, hind1] at h
  rcases hx : s.particles[i1]? with _ | pfirst
  · simp [replace_trio, hind1, hx] at h
  rcases hq : ns.particles with _ | ⟨q0, qs⟩
  · simp [replace_trio, hind1, hx, hq] at h
  simp only [replace_trio, hind1, if_false, hx, hq] at h
  rw [Option.map_eq_some'] at h
  obtain ⟨l, -, hgl⟩ := h
  have hmut : Sim.mk ns.G (q0 :: qs.map (fun q => { q with a := pfirst.a * q.a }))
      = mutd := congrArg Prod.snd hgl
  refine ⟨pfirst, rfl, q0, qs, rfl, by rw [← hmut], by rw [← hmut], ?_⟩
  intro ha1 k q hkq hqa
  rw [← hmut]
  dsimp only
  rw [List.getElem?_cons_succ, List.getElem?_cons_succ, List.getElem?_map, hkq]
  intro hcontra
  have hfq := Option.some.inj hcontra
  have ha := congrArg Particle.a hfq
  dsimp only at ha
  apply ha1
  exact mul_right_cancel₀ hqa (ha.trans (one_mul q.a).symm)

/-- Witness for C10: reinserting a reduced state holding one surviving
body of semi-major axis 5, with the original innermost trio body at
semi-major axis 2, rescales the reduced state's body to axis 10 in
place, so the caller's reduced state differs at slot 1. -/
theorem C10_witness :
    replace_trio id ⟨1, [star 1, samplePlanet 2, samplePlanet 3, samplePlanet 4]⟩ 1 2 3
        ⟨4 * Real.pi ^ 2, [star 1, samplePlanet 5]⟩
      = some (⟨1, [star 1, { samplePlanet 5 with a := (samplePlanet 2).a * (samplePlanet 5).a }]⟩,
              ⟨4 * Real.pi ^ 2,
               [star 1, { samplePlanet 5 with a := (samplePlanet 2).a * (samplePlanet 5).a }]⟩) ∧
    (⟨4 * Real.pi ^ 2,
      [star 1, { samplePlanet 5 with a := (samplePlanet 2).a * (samplePlanet 5).a }]⟩ : Sim).particles[1]?
      ≠ (⟨4 * Real.pi ^ 2, [star 1, samplePlanet 5]⟩ : Sim).particles[1]? := by
  have hrun : replace_trio id ⟨1, [star 1, samplePlanet 2, samplePlanet 3, samplePlanet 4]⟩ 1 2 3
      ⟨4 * Real.pi ^ 2, [star 1, samplePlanet 5]⟩
    = some (⟨1, [star 1, { samplePlanet 5 with a := (samplePlanet 2).a * (samplePlanet 5).a }]⟩,
            ⟨4 * Real.pi ^ 2,
             [star 1, { samplePlanet 5 with a := (samplePlanet 2).a * (samplePlanet 5).a }]⟩) := by
    norm_num [replace_trio, setAt, removeAt, sortByA, List.insertionSort, List.orderedInsert]
  refine ⟨hrun, ?_⟩
  obtain ⟨pfirst, hpf, q0, qs, hq, -, -, hneq⟩ :=
    C10_replace_trio_mutates_input id
      ⟨1, [star 1, samplePlanet 2, samplePlanet 3, samplePlanet 4]⟩ 1 2 3
      ⟨4 * Real.pi ^ 2, [star 1, samplePlanet 5]⟩ _ _ hrun
  have hpe : pfirst = samplePlanet 2 :=
    (Option.some.inj hpf).symm
  have hq0 : q0 = star 1 := (List.cons.inj hq).1.symm
  have hqs : qs = [samplePlanet 5] := (List.cons.inj hq).2.symm
  subst hpe hq0 hqs
  exact hneq (by norm_num [samplePlanet]) 0 (samplePlanet 5) rfl
    (by norm_num [samplePlanet])

/-- Counterexample to claim C5: a reinsertion whose two surviving
bodies end up with equal semi-major axes (both 5, innermost original
axis 1) succeeds and places them in slots 1 and 2, where the strict
inequality `a_1 < a_2` fails. -/
theorem C5_counterexample :
    replace_trio id ⟨1, [star 1, samplePlanet 1, samplePlanet 2, samplePlanet 3]⟩ 1 2 3
        ⟨4 * Real.pi ^ 2, [star 1, samplePlanet 5, samplePlanet 5]⟩
      = some (⟨1, [star 1, { samplePlanet 5 with a := (samplePlanet 1).a * (samplePlanet 5).a },
                   { samplePlanet 5 with a := (samplePlanet 1).a * (samplePlanet 5).a }]⟩,
              ⟨4 * Real.pi ^ 2,
               [star 1, { samplePlanet 5 with a := (samplePlanet 1).a * (samplePlanet 5).a },
                { samplePlanet 5 with a := (samplePlanet 1).a * (samplePlanet 5).a }]⟩) ∧
    ¬(({ samplePlanet 5 with a := (samplePlanet 1).a * (samplePlanet 5).a } : Particle).a
        < ({ samplePlanet 5 with a := (samplePlanet 1).a * (samplePlanet 5).a } : Particle).a) := by
  constructor
  · norm_num [replace_trio, setAt, removeAt, sortByA, List.insertionSort,
      List.orderedInsert, leA]
  · exact lt_irrefl _

/-- Claim C5 amended: after any successful reinsertion the non-dominant
bodies occupy slots 1..k in ascending (not necessarily strict) order of
semi-major axis: for all slots `1 ≤ i < j`, `a_i ≤ a_j`; ties are
possible, so the strict form of the claim fails, but no descending pair
can occur regardless of how integration or mergers permuted or removed
bodies. -/
theorem C5_reinsertion_sorted (R : Particle → Particle) (s : Sim)
    (i1 i2 i3 : ℕ) (ns res mutd : Sim)
    (h : replace_trio R s i1 i2 i3 ns = some (res, mutd)) :
    ∀ i j (pi pj : Particle), 1 ≤ i → i < j →
      res.particles[i]? = some pi → res.particles[j]? = some pj →
      pi.a ≤ pj.a := by
  by_cases hind1 : i1 = 0
  · simp [replace_trio, hind1] at h
  rcases hx : s.particles[i1]? with _ | pfirst
  · simp [replace_trio, hind1, hx] at h
  rcases hq : ns.particles with _ | ⟨q0, qs⟩
  · simp [replace_trio, hind1, hx, hq] at h
  simp only [replace_trio, hind1, if_false, hx, hq] at h
  rw [Option.map_eq_some'] at h
  obtain ⟨l, -, hgl⟩ := h
  have hres : Sim.mk s.G
      (match l.map R with
       | [] => []
       | hh :: t => hh :: sortByA t)
      = res := congrArg Prod.fst hgl
  intro i j pi pj h1i hij hpi hpj
  rw [← hres] at hpi hpj
  dsimp only at hpi hpj
  cases hmap : l.map R with
  | nil =>
    rw [hmap] at hpi
    simp at hpi
  | cons hh t =>
    rw [hmap] at hpi hpj
    dsimp only at hpi hpj
    obtain ⟨ki, rfl⟩ : ∃ ki, i = ki + 1 := ⟨i - 1, by omega⟩
    obtain ⟨kj, rfl⟩ : ∃ kj, j = kj + 1 := ⟨j - 1, by omega⟩
    rw [List.getElem?_cons_succ] at hpi hpj
    rw [List.getElem?_eq_some] at hpi hpj
    obtain ⟨hki, hgi⟩ := hpi
    obtain ⟨hkj, hgj⟩ := hpj
    have hik : ki < kj := by omega
    have hrel := List.pairwise_iff_getElem.mp (sorted_sortByA t) ki kj hki hkj hik
    rw [hgi, hgj] at hrel
    exact hrel

/-- Witness for C5 amended: a five-particle original with trio (1,2,3)
and one surviving body: the result places the rescaled survivor (axis
2) in slot 1 and the untouched outer planet (axis 9) in slot 2, in
ascending order. -/
theorem C5_witness :
    replace_trio id
        ⟨1, [star 1, samplePlanet 1, samplePlanet 2, samplePlanet 3, samplePlanet 9]⟩ 1 2 3
        ⟨4 * Real.pi ^ 2, [star 1, samplePlanet 2]⟩
      = some (⟨1, [star 1, { samplePlanet 2 with a := (samplePlanet 1).a * (samplePlanet 2).a },
                   samplePlanet 9]⟩,
              ⟨4 * Real.pi ^ 2,
               [star 1, { samplePlanet 2 with a := (samplePlanet 1).a * (samplePlanet 2).a }]⟩) ∧
    ({ samplePlanet 2 with a := (samplePlanet 1).a * (samplePlanet 2).a } : Particle).a
      ≤ (samplePlanet 9).a := by
  have hrun : replace_trio id
      ⟨1, [star 1, samplePlanet 1, samplePlanet 2, samplePlanet 3, samplePlanet 9]⟩ 1 2 3
      ⟨4 * Real.pi ^ 2, [star 1, samplePlanet 2]⟩
    = some (⟨1, [star 1, { samplePlanet 2 with a := (samplePlanet 1).a * (samplePlanet 2).a },
                 samplePlanet 9]⟩,
            ⟨4 * Real.pi ^ 2,
             [star 1, { samplePlanet 2 with a := (samplePlanet 1).a * (samplePlanet 2).a }]⟩) := by
    norm_num [replace_trio, setAt, removeAt, sortByA, List.insertionSort,
      List.orderedInsert, leA, samplePlanet]
  refine ⟨hrun, ?_⟩
  exact C5_reinsertion_sorted id
    ⟨1, [star 1, samplePlanet 1, samplePlanet 2, samplePlanet 3, samplePlanet 9]⟩ 1 2 3
    ⟨4 * Real.pi ^ 2, [star 1, samplePlanet 2]⟩ _ _ hrun 1 2
    { samplePlanet 2 with a := (samplePlanet 1).a * (samplePlanet 2).a } (samplePlanet 9)
    (by norm_num) (by norm_num) rfl rfl

end Spock
